import Mathlib

/-!
Shallow embedding of the activity-record stream transformer of
`myWhoosh2Garmin.py` (function `cleanup_fit_file`), together with proofs of
the specification's claims about it.

The transformer walks the decoded record stream once, in order:
  * `FileCreatorMessage` / `LapMessage` records are skipped (`continue`);
  * `RecordMessage` (a per-tick sample) has its temperature field removed and
    its cadence / power / heart-rate value (a falsy value counts as `0`)
    appended to three accumulation buffers;
  * `SessionMessage` (a session summary) has each falsy average replaced by
    `sum(buffer) / len(buffer)` (`0` for an empty buffer), after which all
    three buffers are cleared;
  * every non-skipped message is appended to the output builder.

Numeric values are modelled as rationals (`ℚ`), optional fields as `Option ℚ`,
and the fields the transform never touches as an opaque `payload : ℕ`.
-/

namespace MyWhoosh2Garmin

/-- A decoded FIT record, restricted to the kinds the transform inspects.
`fileMetadata` stands for `FileCreatorMessage`, `lapSummary` for `LapMessage`,
`sample` for `RecordMessage`, `sessionSummary` for `SessionMessage`; `other`
is any further message kind, passed through opaquely.  The `payload` field
stands for all fields of the message that the transform never touches. -/
inductive Record where
  | fileMetadata (payload : ℕ)
  | lapSummary (payload : ℕ)
  | sample (cadence power heart_rate temperature : Option ℚ) (payload : ℕ)
  | sessionSummary (avg_cadence avg_power avg_heart_rate : Option ℚ) (payload : ℕ)
  | other (payload : ℕ)
  deriving DecidableEq, Repr

/-- Python truthiness of an optional numeric field: `None` and `0` are falsy. -/
def truthy : Option ℚ → Bool
  | none => false
  | some v => v != 0

/-- The sample contribution `message.cadence if message.cadence else 0`: the
field's value when truthy, otherwise the numeric zero. -/
def pyOrZero : Option ℚ → ℚ
  | none => 0
  | some v => if v = 0 then 0 else v

/-- The buffer mean `sum(values) / len(values) if values else 0`. -/
def mean (vals : List ℚ) : ℚ :=
  if vals = [] then 0 else vals.sum / (vals.length : ℚ)

/-- The three accumulation buffers (`cadence_values`, `power_values`,
`heart_rate_values` in the source). -/
structure AggState where
  cadence_values : List ℚ
  power_values : List ℚ
  heart_rate_values : List ℚ
  deriving DecidableEq, Repr

/-- The buffers at the start of processing: all empty. -/
def initState : AggState := ⟨[], [], []⟩

/-- The summary repair `if not message.avg_x: message.avg_x = <mean of buffer>`:
keep a truthy value, otherwise overwrite with the buffer mean. -/
def patch (existing : Option ℚ) (vals : List ℚ) : Option ℚ :=
  if truthy existing then existing else some (mean vals)

/-- One iteration of the loop body of `cleanup_fit_file`: given the current
buffers and the next record, return the updated buffers and the records
appended to the builder (empty for dropped kinds, a singleton otherwise). -/
def step (st : AggState) (r : Record) : AggState × List Record :=
  match r with
  | .fileMetadata _ => (st, [])
  | .lapSummary _ => (st, [])
  | .sample c p h _t payload =>
      (⟨st.cadence_values ++ [pyOrZero c],
        st.power_values ++ [pyOrZero p],
        st.heart_rate_values ++ [pyOrZero h]⟩,
       [Record.sample c p h none payload])
  | .sessionSummary ac ap ah payload =>
      (initState,
       [Record.sessionSummary (patch ac st.cadence_values)
          (patch ap st.power_values)
          (patch ah st.heart_rate_values) payload])
  | .other payload => (st, [Record.other payload])

/-- Run the loop of `cleanup_fit_file` from buffers `st` over the remaining
records, collecting the builder output. -/
def processFrom (st : AggState) : List Record → List Record
  | [] => []
  | r :: rs => (step st r).2 ++ processFrom (step st r).1 rs

/-- The whole transform: the loop started with empty buffers.  (Decoding and
re-encoding of the container are the codec collaborator and are not part of
the transform.) -/
def cleanup_fit_file (stream : List Record) : List Record :=
  processFrom initState stream

/-- The buffers after the loop has consumed `l`, starting from `st`. -/
def stateAfter (st : AggState) : List Record → AggState
  | [] => st
  | r :: rs => stateAfter (step st r).1 rs

/-- Record-kind discriminator for `fileMetadata`. -/
def isFileMetadata : Record → Bool
  | .fileMetadata _ => true
  | _ => false

/-- Record-kind discriminator for `lapSummary`. -/
def isLapSummary : Record → Bool
  | .lapSummary _ => true
  | _ => false

/-- Record-kind discriminator for `sample`. -/
def isSample : Record → Bool
  | .sample _ _ _ _ _ => true
  | _ => false

/-- Record-kind discriminator for `sessionSummary`. -/
def isSessionSummary : Record → Bool
  | .sessionSummary _ _ _ _ => true
  | _ => false

/-- A record of a kind that is forwarded to the output. -/
def isRetained (r : Record) : Bool :=
  !(isFileMetadata r || isLapSummary r)

/-- The cadence contributions of the `Sample` records of a segment, in order:
each sample contributes its value, or zero when the value is falsy. -/
def sampleCadences (l : List Record) : List ℚ :=
  l.filterMap fun r => match r with
    | .sample c _ _ _ _ => some (pyOrZero c)
    | _ => none

/-- Power contributions of the `Sample` records of a segment. -/
def samplePowers (l : List Record) : List ℚ :=
  l.filterMap fun r => match r with
    | .sample _ p _ _ _ => some (pyOrZero p)
    | _ => none

/-- Heart-rate contributions of the `Sample` records of a segment. -/
def sampleHeartRates (l : List Record) : List ℚ :=
  l.filterMap fun r => match r with
    | .sample _ _ h _ _ => some (pyOrZero h)
    | _ => none

/-- The record `step` forwards for a non-`sessionSummary` record: nothing for
the two dropped kinds, the temperature-stripped sample for a `Sample`, the
record itself otherwise.  (For a `sessionSummary` the transform's real output
depends on the buffers; this function is only ever applied to summary-free
segments.) -/
def droppedOrStripped : Record → Option Record
  | .fileMetadata _ => none
  | .lapSummary _ => none
  | .sample c p h _t e => some (Record.sample c p h none e)
  | r => some r

/-- An output record corresponds to its input record: same kind, and every
field other than a sample's temperature and a summary's three averages is
unchanged. -/
def corresponds : Record → Record → Prop
  | .sample c p h _ e, .sample c2 p2 h2 _ e2 => c = c2 ∧ p = p2 ∧ h = h2 ∧ e = e2
  | .sessionSummary _ _ _ e, .sessionSummary _ _ _ e2 => e = e2
  | r, r2 => r = r2

/-! ## Helper lemmas about the loop -/

/-- Processing a concatenation: the second part starts from the buffers the
first part leaves behind. -/
theorem processFrom_append (a b : List Record) (st : AggState) :
    processFrom st (a ++ b) = processFrom st a ++ processFrom (stateAfter st a) b := by
  induction a generalizing st with
  | nil => simp [processFrom, stateAfter]
  | cons r rs ih => simp [processFrom, stateAfter, ih]

/-- The buffers left by a concatenation. -/
theorem stateAfter_append (a b : List Record) (st : AggState) :
    stateAfter st (a ++ b) = stateAfter (stateAfter st a) b := by
  induction a generalizing st with
  | nil => simp [stateAfter]
  | cons r rs ih => simp [stateAfter, ih]

/-- Over a summary-free segment the buffers only grow, by exactly the
segment's sample contributions. -/
theorem stateAfter_no_session (l : List Record) (st : AggState)
    (h : ∀ r ∈ l, isSessionSummary r = false) :
    stateAfter st l =
      ⟨st.cadence_values ++ sampleCadences l,
       st.power_values ++ samplePowers l,
       st.heart_rate_values ++ sampleHeartRates l⟩ := by
  induction l generalizing st with
  | nil => simp [stateAfter, sampleCadences, samplePowers, sampleHeartRates]
  | cons r rs ih =>
    have hr := h r (by simp)
    have hrs : ∀ x ∈ rs, isSessionSummary x = false := fun x hx => h x (by simp [hx])
    cases r with
    | fileMetadata d =>
      simp [stateAfter, step, ih _ hrs, sampleCadences, samplePowers, sampleHeartRates]
    | lapSummary d =>
      simp [stateAfter, step, ih _ hrs, sampleCadences, samplePowers, sampleHeartRates]
    | sample c p hh t e =>
      simp [stateAfter, step, ih _ hrs, sampleCadences, samplePowers, sampleHeartRates]
    | sessionSummary ac ap ah e => simp [isSessionSummary] at hr
    | other d =>
      simp [stateAfter, step, ih _ hrs, sampleCadences, samplePowers, sampleHeartRates]

/-- One cadence contribution per `Sample` record. -/
theorem sampleCadences_length (l : List Record) :
    (sampleCadences l).length = l.countP isSample := by
  induction l with
  | nil => simp [sampleCadences]
  | cons r rs ih =>
    cases r <;> simp [sampleCadences, isSample, List.countP_cons] at ih ⊢ <;> omega

/-- One power contribution per `Sample` record. -/
theorem samplePowers_length (l : List Record) :
    (samplePowers l).length = l.countP isSample := by
  induction l with
  | nil => simp [samplePowers]
  | cons r rs ih =>
    cases r <;> simp [samplePowers, isSample, List.countP_cons] at ih ⊢ <;> omega

/-- One heart-rate contribution per `Sample` record. -/
theorem sampleHeartRates_length (l : List Record) :
    (sampleHeartRates l).length = l.countP isSample := by
  induction l with
  | nil => simp [sampleHeartRates]
  | cons r rs ih =>
    cases r <;> simp [sampleHeartRates, isSample, List.countP_cons] at ih ⊢ <;> omega

/-- Exactly the two dropped kinds are missing from the output count. -/
theorem processFrom_length (l : List Record) (st : AggState) :
    (processFrom st l).length + l.countP isFileMetadata + l.countP isLapSummary =
      l.length := by
  induction l generalizing st with
  | nil => simp [processFrom]
  | cons r rs ih =>
    cases r with
    | fileMetadata d =>
      have h1 := ih st
      simp [processFrom, step, isFileMetadata, isLapSummary, List.countP_cons]
      omega
    | lapSummary d =>
      have h1 := ih st
      simp [processFrom, step, isFileMetadata, isLapSummary, List.countP_cons]
      omega
    | sample c p h t e =>
      have h1 := ih ⟨st.cadence_values ++ [pyOrZero c],
        st.power_values ++ [pyOrZero p], st.heart_rate_values ++ [pyOrZero h]⟩
      simp [processFrom, step, isFileMetadata, isLapSummary, List.countP_cons]
      omega
    | sessionSummary ac ap ah e =>
      have h1 := ih initState
      simp [processFrom, step, isFileMetadata, isLapSummary, List.countP_cons]
      omega
    | other d =>
      have h1 := ih st
      simp [processFrom, step, isFileMetadata, isLapSummary, List.countP_cons]
      omega

/-- Patching an already-patched-to-the-mean value changes nothing. -/
theorem patch_mean_self (vals : List ℚ) :
    patch (some (mean vals)) vals = some (mean vals) := by
  unfold patch
  split <;> rfl

/-- `patch` is idempotent for a fixed buffer. -/
theorem patch_patch (o : Option ℚ) (vals : List ℚ) :
    patch (patch o vals) vals = patch o vals := by
  by_cases h : truthy o = true
  · simp [patch, h]
  · simp [patch, h, patch_mean_self]

/-- Re-running the loop over its own output, from the same starting buffers,
reproduces that output. -/
theorem processFrom_self (s : List Record) (st : AggState) :
    processFrom st (processFrom st s) = processFrom st s := by
  induction s generalizing st with
  | nil => simp [processFrom]
  | cons r rs ih =>
    cases r with
    | fileMetadata d => simpa [processFrom, step] using ih _
    | lapSummary d => simpa [processFrom, step] using ih _
    | sample c p h t e => simp [processFrom, step, ih]
    | sessionSummary ac ap ah e => simp [processFrom, step, patch_patch, ih]
    | other d => simp [processFrom, step, ih]

/-- Every sample the loop emits has had its temperature removed. -/
theorem temp_none_of_mem_processFrom (s : List Record) (st : AggState)
    (c p h t : Option ℚ) (e : ℕ)
    (hmem : Record.sample c p h t e ∈ processFrom st s) : t = none := by
  induction s generalizing st with
  | nil => simp [processFrom] at hmem
  | cons r rs ih =>
    cases r with
    | fileMetadata d => exact ih _ (by simpa [processFrom, step] using hmem)
    | lapSummary d => exact ih _ (by simpa [processFrom, step] using hmem)
    | sample c2 p2 h2 t2 e2 =>
      simp [processFrom, step] at hmem
      rcases hmem with ⟨_, _, _, ht, _⟩ | hmem
      · exact ht
      · exact ih _ hmem
    | sessionSummary ac ap ah e2 =>
      simp [processFrom, step] at hmem
      exact ih _ hmem
    | other d =>
      simp [processFrom, step] at hmem
      exact ih _ hmem

/-- Over a summary-free segment the output does not depend on the buffers:
it is the pointwise drop/strip of the segment. -/
theorem processFrom_no_session (l : List Record) (st : AggState)
    (h : ∀ r ∈ l, isSessionSummary r = false) :
    processFrom st l = l.filterMap droppedOrStripped := by
  induction l generalizing st with
  | nil => simp [processFrom]
  | cons r rs ih =>
    have hrs : ∀ x ∈ rs, isSessionSummary x = false := fun x hx => h x (by simp [hx])
    cases r with
    | fileMetadata d => simp [processFrom, step, droppedOrStripped, ih _ hrs]
    | lapSummary d => simp [processFrom, step, droppedOrStripped, ih _ hrs]
    | sample c p hh t e => simp [processFrom, step, droppedOrStripped, ih _ hrs]
    | sessionSummary ac ap ah e => simp [isSessionSummary] at h
    | other d => simp [processFrom, step, droppedOrStripped, ih _ hrs]

/-- The output is the retained input records, in order, each transformed to a
corresponding record. -/
theorem forall2_corresponds (s : List Record) (st : AggState) :
    List.Forall₂ corresponds (s.filter isRetained) (processFrom st s) := by
  induction s generalizing st with
  | nil => simp [processFrom]
  | cons r rs ih =>
    cases r with
    | fileMetadata d =>
      simpa [processFrom, step, isRetained, isFileMetadata, isLapSummary] using ih _
    | lapSummary d =>
      simpa [processFrom, step, isRetained, isFileMetadata, isLapSummary] using ih _
    | sample c p h t e =>
      simp [processFrom, step, isRetained, isFileMetadata, isLapSummary]
      exact ⟨by simp [corresponds], ih _⟩
    | sessionSummary ac ap ah e =>
      simp [processFrom, step, isRetained, isFileMetadata, isLapSummary]
      exact ⟨by simp [corresponds], ih _⟩
    | other d =>
      simp [processFrom, step, isRetained, isFileMetadata, isLapSummary]
      exact ⟨by simp [corresponds], ih _⟩

/-- A segment without `Sample` records contributes no cadence values. -/
theorem sampleCadences_of_no_sample (l : List Record)
    (h : ∀ r ∈ l, isSample r = false) : sampleCadences l = [] := by
  induction l with
  | nil => simp [sampleCadences]
  | cons r rs ih =>
    have hrs : ∀ x ∈ rs, isSample x = false := fun x hx => h x (by simp [hx])
    cases r with
    | sample c p hh t e => simp [isSample] at h
    | fileMetadata d => simpa [sampleCadences] using ih hrs
    | lapSummary d => simpa [sampleCadences] using ih hrs
    | sessionSummary ac ap ah e => simpa [sampleCadences] using ih hrs
    | other d => simpa [sampleCadences] using ih hrs

/-- A segment without `Sample` records contributes no power values. -/
theorem samplePowers_of_no_sample (l : List Record)
    (h : ∀ r ∈ l, isSample r = false) : samplePowers l = [] := by
  induction l with
  | nil => simp [samplePowers]
  | cons r rs ih =>
    have hrs : ∀ x ∈ rs, isSample x = false := fun x hx => h x (by simp [hx])
    cases r with
    | sample c p hh t e => simp [isSample] at h
    | fileMetadata d => simpa [samplePowers] using ih hrs
    | lapSummary d => simpa [samplePowers] using ih hrs
    | sessionSummary ac ap ah e => simpa [samplePowers] using ih hrs
    | other d => simpa [samplePowers] using ih hrs

/-- A segment without `Sample` records contributes no heart-rate values. -/
theorem sampleHeartRates_of_no_sample (l : List Record)
    (h : ∀ r ∈ l, isSample r = false) : sampleHeartRates l = [] := by
  induction l with
  | nil => simp [sampleHeartRates]
  | cons r rs ih =>
    have hrs : ∀ x ∈ rs, isSample x = false := fun x hx => h x (by simp [hx])
    cases r with
    | sample c p hh t e => simp [isSample] at h
    | fileMetadata d => simpa [sampleHeartRates] using ih hrs
    | lapSummary d => simpa [sampleHeartRates] using ih hrs
    | sessionSummary ac ap ah e => simpa [sampleHeartRates] using ih hrs
    | other d => simpa [sampleHeartRates] using ih hrs

/-- The buffer mean written with the length made explicit. -/
theorem mean_count (vals : List ℚ) (n : ℕ) (hlen : vals.length = n) :
    mean vals = if n = 0 then 0 else vals.sum / (n : ℚ) := by
  subst hlen
  unfold mean
  rcases vals with _ | ⟨v, vs⟩ <;> simp

/-! ## The claims -/

/-- Claim C1: for a session segment, a falsy (absent or zero) incoming average
of a `SessionSummary` is overwritten with the arithmetic mean of that statistic
over the segment's samples — each sample contributing its value, or zero when
the value is falsy, so the denominator is the number of `Sample` records of the
segment — the mean being zero when the segment has no samples, while a truthy
(nonzero) incoming value is left unchanged. -/
theorem mean_correctness (pre rest : List Record) (ac ap ah : Option ℚ) (e : ℕ)
    (hpre : ∀ r ∈ pre, isSessionSummary r = false) :
    cleanup_fit_file (pre ++ Record.sessionSummary ac ap ah e :: rest) =
      cleanup_fit_file pre ++
        Record.sessionSummary
          (if truthy ac then ac else some
            (if pre.countP isSample = 0 then 0
             else (sampleCadences pre).sum / (pre.countP isSample : ℚ)))
          (if truthy ap then ap else some
            (if pre.countP isSample = 0 then 0
             else (samplePowers pre).sum / (pre.countP isSample : ℚ)))
          (if truthy ah then ah else some
            (if pre.countP isSample = 0 then 0
             else (sampleHeartRates pre).sum / (pre.countP isSample : ℚ)))
          e :: processFrom initState rest := by
  have hc := mean_count (sampleCadences pre) (pre.countP isSample) (sampleCadences_length pre)
  have hp := mean_count (samplePowers pre) (pre.countP isSample) (samplePowers_length pre)
  have hh := mean_count (sampleHeartRates pre) (pre.countP isSample) (sampleHeartRates_length pre)
  unfold cleanup_fit_file
  rw [processFrom_append, stateAfter_no_session _ _ hpre]
  simp [processFrom, step, patch, initState, hc, hp, hh]

/-- Witness for C1: one sample then a summary whose cadence is absent, power
is zero and heart rate a nonzero 4; cadence and power get the segment means,
the heart rate stays. -/
theorem mean_correctness_witness :
    cleanup_fit_file [Record.sample (some 1) (some 2) (some 3) none 7,
        Record.sessionSummary none (some 0) (some 4) 8] =
      [Record.sample (some 1) (some 2) (some 3) none 7,
       Record.sessionSummary (some 1) (some 2) (some 4) 8] := by
  have h := mean_correctness [Record.sample (some 1) (some 2) (some 3) none 7] []
      none (some 0) (some 4) 8 (by decide)
  simpa [cleanup_fit_file, processFrom, step, patch, truthy, sampleCadences, samplePowers,
    sampleHeartRates, pyOrZero, isSample] using h

/-- Claim C2: the output has exactly the input records minus the
`FileMetadata` and `LapSummary` records; those two kinds are never forwarded
and never feed the accumulation buffers. -/
theorem drop_invariant (s : List Record) :
    (cleanup_fit_file s).length =
      s.length - s.countP isFileMetadata - s.countP isLapSummary ∧
    (∀ st d, step st (Record.fileMetadata d) = (st, [])) ∧
    (∀ st d, step st (Record.lapSummary d) = (st, [])) := by
  refine ⟨?_, fun st d => rfl, fun st d => rfl⟩
  have h1 := processFrom_length s initState
  unfold cleanup_fit_file
  omega

/-- Claim C3: every `Sample` record of the output carries no temperature
field, whether or not the input sample did. -/
theorem temperature_removed (s : List Record) (c p h t : Option ℚ) (e : ℕ)
    (hmem : Record.sample c p h t e ∈ cleanup_fit_file s) : t = none :=
  temp_none_of_mem_processFrom s initState c p h t e hmem

/-- Witness for C3: a sample that enters with temperature 5 is in the output
only with temperature `none`. -/
theorem temperature_removed_witness :
    Record.sample none none none none 0 ∈
      cleanup_fit_file [Record.sample none none none (some 5) 0] ∧
    (none : Option ℚ) = none :=
  ⟨by simp [cleanup_fit_file, processFrom, step],
   temperature_removed [Record.sample none none none (some 5) 0] none none none none 0
     (by simp [cleanup_fit_file, processFrom, step])⟩

/-- Claim C4: consecutive session segments are independent — the stream splits
at a `SessionSummary`, so the second session's output (and hence its computed
means) depends only on what follows the first summary, never on the samples
before it; each summary reads the means from the buffers as they stand and
only then resets them to empty. -/
theorem segment_isolation (A B rest : List Record)
    (ac1 ap1 ah1 ac2 ap2 ah2 : Option ℚ) (e1 e2 : ℕ) :
    cleanup_fit_file (A ++ Record.sessionSummary ac1 ap1 ah1 e1 ::
        (B ++ Record.sessionSummary ac2 ap2 ah2 e2 :: rest)) =
      cleanup_fit_file (A ++ [Record.sessionSummary ac1 ap1 ah1 e1]) ++
        cleanup_fit_file (B ++ Record.sessionSummary ac2 ap2 ah2 e2 :: rest) ∧
    ∀ st, step st (Record.sessionSummary ac2 ap2 ah2 e2) =
      (initState,
       [Record.sessionSummary (patch ac2 st.cadence_values)
          (patch ap2 st.power_values) (patch ah2 st.heart_rate_values) e2]) := by
  refine ⟨?_, fun st => rfl⟩
  unfold cleanup_fit_file
  have hsplit : A ++ Record.sessionSummary ac1 ap1 ah1 e1 ::
      (B ++ Record.sessionSummary ac2 ap2 ah2 e2 :: rest) =
      (A ++ [Record.sessionSummary ac1 ap1 ah1 e1]) ++
        (B ++ Record.sessionSummary ac2 ap2 ah2 e2 :: rest) := by simp
  rw [hsplit, processFrom_append, stateAfter_append]
  have hreset : stateAfter (stateAfter initState A)
      [Record.sessionSummary ac1 ap1 ah1 e1] = initState := by
    simp [stateAfter, step]
  rw [hreset]

/-- Claim C5: a `SessionSummary` whose incoming average is a nonzero value
keeps that value in the output, and every field of the summary other than the
three averages (its `payload`, and its kind) is unchanged. -/
theorem nonzero_averages_preserved (st : AggState) (ac ap ah : Option ℚ) (e : ℕ)
    (rest : List Record) :
    ∃ ac2 ap2 ah2,
      processFrom st (Record.sessionSummary ac ap ah e :: rest) =
        Record.sessionSummary ac2 ap2 ah2 e :: processFrom initState rest ∧
      (∀ v : ℚ, v ≠ 0 → ac = some v → ac2 = some v) ∧
      (∀ v : ℚ, v ≠ 0 → ap = some v → ap2 = some v) ∧
      (∀ v : ℚ, v ≠ 0 → ah = some v → ah2 = some v) := by
  refine ⟨patch ac st.cadence_values, patch ap st.power_values, patch ah st.heart_rate_values,
    by simp [processFrom, step], ?_, ?_, ?_⟩ <;>
  · intro v hv hev
    subst hev
    simp [patch, truthy, hv]

/-- Claim C6: the retained input records and the output records correspond
pairwise in order — dropping the two removed kinds reorders nothing. -/
theorem order_preservation (s : List Record) :
    List.Forall₂ corresponds (s.filter isRetained) (cleanup_fit_file s) :=
  forall2_corresponds s initState

/-- Claim C7: the transform is total, and a `SessionSummary` preceded by zero
samples gets a mean of exactly zero for each falsy statistic — no
division-by-zero, no error for empty or missing-field conditions. -/
theorem zero_sample_session_total (pre rest : List Record) (ac ap ah : Option ℚ) (e : ℕ)
    (hpre : ∀ r ∈ pre, isSample r = false ∧ isSessionSummary r = false) :
    cleanup_fit_file (pre ++ Record.sessionSummary ac ap ah e :: rest) =
      cleanup_fit_file pre ++
        Record.sessionSummary
          (if truthy ac then ac else some 0)
          (if truthy ap then ap else some 0)
          (if truthy ah then ah else some 0) e :: processFrom initState rest := by
  unfold cleanup_fit_file
  rw [processFrom_append, stateAfter_no_session _ _ (fun r hr => (hpre r hr).2)]
  simp [processFrom, step, patch, initState, mean,
    sampleCadences_of_no_sample _ (fun r hr => (hpre r hr).1),
    samplePowers_of_no_sample _ (fun r hr => (hpre r hr).1),
    sampleHeartRates_of_no_sample _ (fun r hr => (hpre r hr).1)]

/-- Witness for C7: a zero-sample session — the zero and absent averages
become exactly zero, the nonzero 5 stays. -/
theorem zero_sample_session_total_witness :
    cleanup_fit_file [Record.other 2, Record.sessionSummary (some 0) none (some 5) 9] =
      [Record.other 2, Record.sessionSummary (some 0) (some 0) (some 5) 9] := by
  have h := zero_sample_session_total [Record.other 2] [] (some 0) none (some 5) 9 (by decide)
  simpa [cleanup_fit_file, processFrom, step, truthy] using h

/-- Claim C8: the spec's concrete example scenario, record for record. -/
theorem example_scenario :
    cleanup_fit_file
      [Record.fileMetadata 0,
       Record.sample (some 80) (some 100) (some 120) none 1,
       Record.sample (some 90) (some 200) (some 130) (some 25) 2,
       Record.sessionSummary none (some 0) none 3,
       Record.lapSummary 4] =
      [Record.sample (some 80) (some 100) (some 120) none 1,
       Record.sample (some 90) (some 200) (some 130) none 2,
       Record.sessionSummary (some 85) (some 150) (some 125) 3] := by
  simp [cleanup_fit_file, processFrom, step, patch, mean, pyOrZero, truthy, initState]
  norm_num

/-- Claim C9: records after the last `SessionSummary` are forwarded
unchanged except for temperature stripping and the two drops, and they feed no
summary; and no record kind other than `Sample` and `SessionSummary`
transitions the aggregation state. -/
theorem trailing_samples_forwarded (s trail : List Record)
    (htrail : ∀ r ∈ trail, isSessionSummary r = false) :
    cleanup_fit_file (s ++ trail) =
      cleanup_fit_file s ++ trail.filterMap droppedOrStripped ∧
    ∀ st r, isSample r = false → isSessionSummary r = false → (step st r).1 = st := by
  constructor
  · unfold cleanup_fit_file
    rw [processFrom_append, processFrom_no_session _ _ htrail]
  · intro st r h1 h2
    cases r with
    | fileMetadata d => rfl
    | lapSummary d => rfl
    | sample c p h t e => simp [isSample] at h1
    | sessionSummary ac ap ah e => simp [isSessionSummary] at h2
    | other d => rfl

/-- Witness for C9: a trailing sample and metadata record after the only
summary — forwarded (stripped, dropped) with the summary output untouched. -/
theorem trailing_samples_forwarded_witness :
    cleanup_fit_file ([Record.sessionSummary none none none 0] ++
        [Record.sample (some 1) none none (some 3) 1, Record.fileMetadata 2]) =
      cleanup_fit_file [Record.sessionSummary none none none 0] ++
        List.filterMap droppedOrStripped
          [Record.sample (some 1) none none (some 3) 1, Record.fileMetadata 2] ∧
    ∀ st r, isSample r = false → isSessionSummary r = false → (step st r).1 = st :=
  trailing_samples_forwarded [Record.sessionSummary none none none 0]
    [Record.sample (some 1) none none (some 3) 1, Record.fileMetadata 2] (by decide)

/-- Claim C10: the transform is idempotent — running it on its own output
changes nothing. -/
theorem transform_idempotent (s : List Record) :
    cleanup_fit_file (cleanup_fit_file s) = cleanup_fit_file s :=
  processFrom_self s initState

end MyWhoosh2Garmin
